import Mathlib

/-!
Verification of the block-sequenced event listener of `cosmwasm-client-rs`
(`src/events.rs`): the contract-event parser, the per-block event collection,
and the sequential block-processing loop.

The Rust code is embedded shallowly:
* `anyhow::Result<T>` becomes `Except String T` (the `String` is the error
  message built by the `anyhow!` macro, without interpolated sub-errors);
* byte strings (raw transactions) become `List Nat`;
* the SHA-256 + hex tx-hash computation (external `sha2` / `hex` crates) is an
  uninterpreted parameter `txHash : List Nat → String`;
* the tendermint RPC calls `block` / `block_results` are an oracle
  `fetch : Nat → Except String FetchedBlock` (the `Height::try_from`
  conversion failure is folded into the oracle's error case);
* a `tokio::mpsc` send on the delivery channel either succeeds or fails
  because the receiver is gone; this global condition is a `Bool` parameter
  `sendOk`;
* the broadcast height-signal channel delivers a finite list of height
  signals; the `while let Ok(..) = rx.recv()` loop ends when that list is
  exhausted (channel closed).
-/

namespace CWClient

/-- Rust `PegInEvent` (src/events.rs lines 16-21); `u32`/`u128` become `Nat`
(parsing enforces the bounds, see `parseUnsigned`). -/
structure PegInEvent where
  msg_index : Nat
  receiver : String
  amount : Nat
deriving Repr, DecidableEq

/-- Rust `PegOutEvent` (src/events.rs lines 23-30). The struct has exactly
these five fields; in particular it has no fee-rate field. -/
structure PegOutEvent where
  msg_index : Nat
  sender : String
  btc_address : String
  operator_btc_pk : String
  amount : Nat
deriving Repr, DecidableEq

/-- Rust `ContractEvent` (src/events.rs lines 32-36). -/
inductive ContractEvent where
  | PegIn : PegInEvent → ContractEvent
  | PegOut : PegOutEvent → ContractEvent
deriving Repr, DecidableEq

/-- Rust `BlockEvents` (src/events.rs lines 38-42): one block's batch of
(tx_hash, event) pairs. -/
structure BlockEvents where
  height : Nat
  events : List (String × ContractEvent)
deriving Repr, DecidableEq

/-- A tendermint `abci::EventAttribute` as seen through `key_str()` /
`value_str()`: each accessor returns `Ok` of a string when the underlying
bytes are valid UTF-8 and `Err` otherwise, modelled as `Option String`. -/
structure EventAttribute where
  key_str : Option String
  value_str : Option String
deriving Repr, DecidableEq

/-- A tendermint `abci::Event`: a kind plus an ordered attribute list. -/
structure Event where
  kind : String
  attributes : List EventAttribute
deriving Repr, DecidableEq

/-- Insert into the association-list model of `std::collections::HashMap`:
overwrite the binding if the key is present, otherwise append it. -/
def insertAttr (m : List (String × String)) (k v : String) :
    List (String × String) :=
  if m.any (fun p => p.1 = k) then
    m.map (fun p => if p.1 = k then (k, v) else p)
  else
    m ++ [(k, v)]

/-- One step of building the `HashMap` of `parse_contract_event`: an
attribute whose key or value bytes are not valid UTF-8 is skipped
(`filter_map` over `key_str().ok().zip(value_str().ok())`), otherwise it is
inserted. -/
def attrStep (m : List (String × String)) (a : EventAttribute) :
    List (String × String) :=
  match a.key_str, a.value_str with
  | some k, some v => insertAttr m k v
  | _, _ => m

/-- The `HashMap` built in `parse_contract_event` (src/events.rs lines
246-255): fold the attribute list left to right. -/
def buildAttrs (attrs : List EventAttribute) : List (String × String) :=
  attrs.foldl attrStep []

/-- Map lookup (`attrs.get(key)` on the Rust `HashMap`). -/
def attrsGet (m : List (String × String)) (k : String) : Option String :=
  (m.find? (fun p => p.1 = k)).map (fun p => p.2)

/-- Accumulate decimal digits, failing on any non-digit character. -/
def parseNatDigits (acc : Nat) : List Char → Option Nat
  | [] => some acc
  | c :: cs =>
      if c.isDigit then parseNatDigits (acc * 10 + (c.toNat - 48)) cs
      else none

/-- Rust `str::parse::<uN>()`: an optional leading plus sign, then one or
more decimal digits, and the value must fit in the target type (otherwise
overflow is an error). -/
def parseUnsigned (max : Nat) (s : String) : Option Nat :=
  let cs :=
    match s.toList with
    | '+' :: rest => rest
    | l => l
  match cs with
  | [] => none
  | _ =>
      match parseNatDigits 0 cs with
      | some v => if v ≤ max then some v else none
      | none => none

/-- Largest value of Rust `u128`. -/
def U128_MAX : Nat := 2 ^ 128 - 1

/-- Largest value of Rust `u32`. -/
def U32_MAX : Nat := 2 ^ 32 - 1

/-- Rust `EventListener::parse_contract_event` (src/events.rs lines 240-313),
with the listener's `contract_address` field passed explicitly. -/
def parse_contract_event (contract_address : String) (event : Event) :
    Except String (Option ContractEvent) :=
  if event.kind ≠ "wasm" then .ok none
  else
    let attrs := buildAttrs event.attributes
    if attrsGet attrs "_contract_address" ≠ some contract_address ∨
        (attrsGet attrs "action" ≠ some "peg_out" ∧
         attrsGet attrs "action" ≠ some "peg_in") then
      .ok none
    else
      match attrsGet attrs "amount" with
      | none => .error "Missing amount"
      | some amountStr =>
        match parseUnsigned U128_MAX amountStr with
        | none => .error "Failed to parse amount"
        | some amount =>
          match attrsGet attrs "msg_index" with
          | none => .error "Missing msg_index"
          | some msgIndexStr =>
            match parseUnsigned U32_MAX msgIndexStr with
            | none => .error "Failed to parse msg_index"
            | some msg_index =>
              match attrsGet attrs "action" with
              | some act =>
                if act = "peg_in" then
                  match attrsGet attrs "receiver" with
                  | none => .error "Missing receiver"
                  | some receiver =>
                      .ok (some (.PegIn ⟨msg_index, receiver, amount⟩))
                else if act = "peg_out" then
                  match attrsGet attrs "sender" with
                  | none => .error "Missing sender"
                  | some sender =>
                    match attrsGet attrs "btc_address" with
                    | none => .error "Missing btc_address"
                    | some btc_address =>
                      match attrsGet attrs "operator_btc_pk" with
                      | none => .error "Missing operator_btc_pk"
                      | some operator_btc_pk =>
                          .ok (some (.PegOut
                            ⟨msg_index, sender, btc_address,
                             operator_btc_pk, amount⟩))
                else .ok none
              | none => .ok none

/-- The per-transaction execution result as used by `get_block_events`: the
`events` list of one entry of `block_results.txs_results`. -/
structure TxResult where
  events : List Event
deriving Repr, DecidableEq

/-- The data `get_block_events` obtains from the two RPC calls for one
height: `block.block.data` (raw transactions) and
`block_results.txs_results`. -/
structure FetchedBlock where
  txs : List (List Nat)
  txs_results : Option (List TxResult)
deriving Repr, DecidableEq

/-- Rust `EventListener::get_block_events` (src/events.rs lines 91-120),
after the two RPC responses are in hand: pair each transaction's hash with
its execution events when the two lists have equal length, else yield
nothing.  (`tx_results.get(i)` is always `Some` under the length guard, so
zipping is exact.) -/
def get_block_events (txHash : List Nat → String) (txs : List (List Nat))
    (txs_results : Option (List TxResult)) : List (String × List Event) :=
  match txs_results with
  | none => []
  | some tx_results =>
      if txs.length = tx_results.length then
        (txs.zip tx_results).map (fun p => (txHash p.1, p.2.events))
      else []

/-- The inner loop of `process_block` (src/events.rs lines 129-135) for one
transaction: parse every event, keeping the matches; the `?` on
`parse_contract_event` aborts at the first per-event error. -/
def collectTxEvents (ca tx_hash : String) :
    List Event → Except String (List (String × ContractEvent))
  | [] => .ok []
  | e :: es =>
      match parse_contract_event ca e with
      | .error msg => .error msg
      | .ok none => collectTxEvents ca tx_hash es
      | .ok (some ce) =>
          match collectTxEvents ca tx_hash es with
          | .error msg => .error msg
          | .ok rest => .ok ((tx_hash, ce) :: rest)

/-- The outer event-collection loop of `process_block` (src/events.rs lines
129-135): all transactions in order, first error aborts. -/
def collectEvents (ca : String) :
    List (String × List Event) → Except String (List (String × ContractEvent))
  | [] => .ok []
  | (tx_hash, evs) :: rest =>
      match collectTxEvents ca tx_hash evs with
      | .error msg => .error msg
      | .ok here =>
          match collectEvents ca rest with
          | .error msg => .error msg
          | .ok there => .ok (here ++ there)

/-- Rust `EventListener::process_block` (src/events.rs lines 123-150).
`fetch` stands for the RPC pair used by `get_block_events`; `sendOk` is
whether the delivery channel's receiver is still alive.  The result
distinguishes: `.ok none` — nothing sent (no events); `.ok (some be)` — the
batch `be` was sent; `.error msg` — fetch, per-event parse, or send failed
(the function returns before or instead of sending). -/
def process_block (txHash : List Nat → String) (contract_address : String)
    (fetch : Nat → Except String FetchedBlock) (sendOk : Bool)
    (height : Nat) : Except String (Option BlockEvents) :=
  match fetch height with
  | .error e => .error e
  | .ok fb =>
      match collectEvents contract_address
          (get_block_events txHash fb.txs fb.txs_results) with
      | .error e => .error e
      | .ok contract_events =>
          if contract_events ≠ [] then
            if sendOk then .ok (some ⟨height, contract_events⟩)
            else .error "Failed to send block events to channel"
          else .ok none

/-- Observable outcome of a run of the processing loop: the final
`last_processed_height`, the heights for which `process_block` was invoked
(hence whose block was fetched), in invocation order, and the batches sent
on the delivery channel, in send order. -/
structure RunResult where
  last : Nat
  fetched : List Nat
  sent : List BlockEvents
deriving Repr, DecidableEq

/-- One iteration of the inner `for height in last+1..=latest` loop of
`process_blocks_sequentially` (src/events.rs lines 226-233): invoke
`process_block`; on error, log and `continue` (the height is recorded as
fetched but `last_processed_height` is not advanced); on success set
`last_processed_height = height`. -/
def stepHeight (pb : Nat → Except String (Option BlockEvents))
    (r : RunResult) (h : Nat) : RunResult :=
  match pb h with
  | .error _ => { r with fetched := r.fetched ++ [h] }
  | .ok none => { last := h, fetched := r.fetched ++ [h], sent := r.sent }
  | .ok (some be) =>
      { last := h, fetched := r.fetched ++ [h], sent := r.sent ++ [be] }

/-- Handling of one received height signal (src/events.rs lines 216-233):
if `latest ≤ last_processed_height`, do nothing; otherwise run the inner
loop over the range `last_processed_height + 1 ..= latest`, which is fixed
at loop entry exactly as the Rust range expression is. -/
def processSignal (pb : Nat → Except String (Option BlockEvents))
    (r : RunResult) (latest : Nat) : RunResult :=
  if latest ≤ r.last then r
  else (List.range' (r.last + 1) (latest - r.last)).foldl (stepHeight pb) r

/-- Rust `EventListener::process_blocks_sequentially` (src/events.rs lines
209-237): consume height signals until the broadcast channel closes, then
return `Ok(())`.  The loop body never returns early, so the Rust function's
only exit is the final `Ok(())`; the embedding returns the run's observable
outcome inside `.ok`. -/
def process_blocks_sequentially (pb : Nat → Except String (Option BlockEvents))
    (last_processed_height : Nat) (signals : List Nat) :
    Except String RunResult :=
  .ok (signals.foldl (processSignal pb) ⟨last_processed_height, [], []⟩)

/-- Spec-side companion for the last-value-wins property: the value carried
by the last occurrence of key `k` in the attribute list, among attributes
whose key and value decode as UTF-8. -/
def lastOccurrenceValue (k : String) : List EventAttribute → Option String
  | [] => none
  | a :: rest =>
      match lastOccurrenceValue k rest with
      | some v => some v
      | none =>
          match a.key_str, a.value_str with
          | some k0, some v => if k0 = k then some v else none
          | _, _ => none

/-- Shorthand for an attribute whose key and value are valid UTF-8. -/
def attrKV (k v : String) : EventAttribute := ⟨some k, some v⟩

/-- A well-formed `wasm` `peg_in` event of contract `"c"` that is missing
its `receiver` attribute. -/
def evPegInNoReceiver : Event :=
  ⟨"wasm",
   [attrKV "_contract_address" "c", attrKV "action" "peg_in",
    attrKV "amount" "100", attrKV "msg_index" "0"]⟩

/-- A fully well-formed `wasm` `peg_in` event of contract `"c"`. -/
def evPegInGood : Event :=
  ⟨"wasm",
   [attrKV "_contract_address" "c", attrKV "action" "peg_in",
    attrKV "amount" "100", attrKV "msg_index" "0",
    attrKV "receiver" "addrA"]⟩

/-- A fully well-formed `wasm` `peg_in` event, but emitted by a contract
other than `"c"`. -/
def evOtherContract : Event :=
  ⟨"wasm",
   [attrKV "_contract_address" "other", attrKV "action" "peg_in",
    attrKV "amount" "100", attrKV "msg_index" "0",
    attrKV "receiver" "addrA"]⟩

/-- A fully well-formed `wasm` `peg_out` event of contract `"c"`, without a
`fee_rate` attribute. -/
def evPegOutNoFee : Event :=
  ⟨"wasm",
   [attrKV "_contract_address" "c", attrKV "action" "peg_out",
    attrKV "amount" "50", attrKV "msg_index" "1",
    attrKV "sender" "s1", attrKV "btc_address" "b1",
    attrKV "operator_btc_pk" "p1"]⟩

/-- The same `peg_out` event with a `fee_rate` attribute appended. -/
def evPegOutFee (fee : String) : Event :=
  ⟨"wasm",
   [attrKV "_contract_address" "c", attrKV "action" "peg_out",
    attrKV "amount" "50", attrKV "msg_index" "1",
    attrKV "sender" "s1", attrKV "btc_address" "b1",
    attrKV "operator_btc_pk" "p1", attrKV "fee_rate" fee]⟩

/-- A fetch oracle whose every block holds one transaction whose events are
a receiverless `peg_in` followed by a well-formed one. -/
def fetchC2 : Nat → Except String FetchedBlock :=
  fun _ => .ok ⟨[[0]], some [⟨[evPegInNoReceiver, evPegInGood]⟩]⟩

/-- A fetch oracle whose every block holds one transaction with one
well-formed `peg_in` event. -/
def fetchOneGoodEvent : Nat → Except String FetchedBlock :=
  fun _ => .ok ⟨[[0]], some [⟨[evPegInGood]⟩]⟩

/-- A fetch oracle that fails (RPC error) exactly at height `12` and
returns an empty block elsewhere. -/
def fetchFailAt12 : Nat → Except String FetchedBlock :=
  fun h => if h = 12 then .error "rpc error" else .ok ⟨[], none⟩

/-- Per-height processing built on `fetchFailAt12`, with a live consumer. -/
def pbFailAt12 : Nat → Except String (Option BlockEvents) :=
  process_block (fun _ => "aa") "c" fetchFailAt12 true

/-- A fetch oracle whose every block holds two transactions: the first with
a well-formed `peg_in`, the second with a well-formed `peg_out`. -/
def fetchTwoTx : Nat → Except String FetchedBlock :=
  fun _ => .ok ⟨[[0], [1]], some [⟨[evPegInGood]⟩, ⟨[evPegOutNoFee]⟩]⟩

/-- A concrete tx-hash function distinguishing the two transactions of
`fetchTwoTx`. -/
def txHashTwo : List Nat → String :=
  fun t => if t = [0] then "hash0" else "hash1"

/-! Helper lemmas about the association-list model of the `HashMap`. -/

/-- Replacing the binding of `k` puts `(k, v)` where the first `k`-binding
was found. -/
lemma find_map_replace (k v : String) :
    ∀ m : List (String × String), m.any (fun p => p.1 = k) = true →
      (m.map (fun p => if p.1 = k then (k, v) else p)).find?
          (fun p => p.1 = k) = some (k, v) := by
  intro m
  induction m with
  | nil => simp
  | cons p m ih =>
      intro hany
      by_cases hp : p.1 = k
      · simp [hp, List.find?_cons]
      · have hm : m.any (fun p => p.1 = k) = true := by
          simpa [List.any_cons, hp] using hany
        simp [List.find?_cons, hp, ih hm]

/-- Replacing the `k`-binding does not affect lookups of other keys. -/
lemma find_map_replace_ne (k v k' : String) (hne : k' ≠ k) :
    ∀ m : List (String × String),
      (m.map (fun p => if p.1 = k then (k, v) else p)).find?
          (fun p => p.1 = k') = m.find? (fun p => p.1 = k') := by
  intro m
  induction m with
  | nil => simp
  | cons p m ih =>
      by_cases hp : p.1 = k
      · have h1 : ¬(k = k') := fun h => hne h.symm
        simp [List.find?_cons, hp, h1, ih]
      · simp only [List.map_cons, List.find?_cons, if_neg hp]
        by_cases hp' : p.1 = k' <;> simp [hp', ih]

/-- Lookup after an insert: the inserted key reads back the inserted value,
every other key is unaffected. -/
lemma attrsGet_insertAttr (m : List (String × String)) (k v k' : String) :
    attrsGet (insertAttr m k v) k' =
      if k' = k then some v else attrsGet m k' := by
  unfold insertAttr attrsGet
  by_cases hany : m.any (fun p => p.1 = k) = true
  · rw [if_pos hany]
    by_cases hk : k' = k
    · subst hk
      rw [find_map_replace _ v _ hany]
      simp
    · rw [find_map_replace_ne k v k' hk m, if_neg hk]
  · rw [if_neg hany]
    have hnone : m.find? (fun p => p.1 = k) = none := by
      rw [List.find?_eq_none]
      intro x hx hpx
      exact hany (List.any_eq_true.mpr ⟨x, hx, hpx⟩)
    by_cases hk : k' = k
    · subst hk
      simp [List.find?_append, hnone]
    · have h2 : ¬(k = k') := fun h => hk h.symm
      simp [List.find?_append, h2, hk]

/-- Folding the attribute list: the lookup of `k` is the last decodable
occurrence of `k`, falling back to the accumulator. -/
lemma attrsGet_foldl (k : String) :
    ∀ (l : List EventAttribute) (m : List (String × String)),
      attrsGet (l.foldl attrStep m) k =
        (lastOccurrenceValue k l).elim (attrsGet m k) some := by
  intro l
  induction l with
  | nil => intro m; simp [lastOccurrenceValue]
  | cons a l ih =>
      intro m
      rw [List.foldl_cons, ih (attrStep m a)]
      cases hl : lastOccurrenceValue k l with
      | some v => simp [lastOccurrenceValue, hl]
      | none =>
          simp only [lastOccurrenceValue, hl, Option.elim]
          unfold attrStep
          cases hk : a.key_str with
          | none => simp
          | some k0 =>
              cases hv : a.value_str with
              | none => simp
              | some v0 =>
                  simp only
                  rw [attrsGet_insertAttr]
                  by_cases h : k0 = k
                  · subst h; simp
                  · have h' : ¬(k = k0) := fun hh => h hh.symm
                    simp [h, h']

/-! Helper lemmas about the sequencer loop. -/

/-- Every height handed to the inner loop is recorded as fetched, whether
its processing succeeds or fails. -/
lemma foldl_stepHeight_fetched (pb : Nat → Except String (Option BlockEvents)) :
    ∀ (l : List Nat) (r : RunResult),
      (l.foldl (stepHeight pb) r).fetched = r.fetched ++ l := by
  intro l
  induction l with
  | nil => intro r; simp
  | cons h l ih =>
      intro r
      rw [List.foldl_cons, ih]
      have hstep : (stepHeight pb r h).fetched = r.fetched ++ [h] := by
        unfold stepHeight
        cases pb h with
        | error e => rfl
        | ok o => cases o <;> rfl
      rw [hstep]
      simp

/-! Claim theorems. -/

/-- C1: the claim says a failure at height `h` leaves `last_processed_height`
at `h - 1` for the rest of the batch, with no later height processed and `h`
retried on the next signal.  The code instead `continue`s to the next height
of the same batch: with `last_processed_height = 11`, signals `15` then `16`,
and the fetch failing only at height `12`, the code fetches
`12, 13, 14, 15, 16` (each once — `12` is never retried) and ends with
`last_processed_height = 16`, having advanced past the undelivered height
`12`. -/
theorem c1_failed_height_skipped_not_retried :
    process_blocks_sequentially pbFailAt12 11 [15, 16] =
      .ok ⟨16, [12, 13, 14, 15, 16], []⟩ := rfl

/-- C2 counterexample: a block whose single transaction carries a
receiverless `peg_in` followed by a fully well-formed `peg_in`.  The sibling
event parses fine on its own, yet `process_block` aborts with the first
event's error and delivers nothing, contradicting the claim that the
remaining events of the block still deliver. -/
theorem c2_counterexample :
    parse_contract_event "c" evPegInGood =
        .ok (some (.PegIn ⟨0, "addrA", 100⟩)) ∧
      process_block (fun _ => "aa") "c" fetchC2 true 5 =
        .error "Missing receiver" :=
  ⟨rfl, rfl⟩

/-- C2 amended: an extraction error on any event of a block aborts the whole
block — `process_block` propagates that event's error and none of the
block's events, including well-formed siblings, are delivered. -/
theorem c2_per_event_error_aborts_block
    (txHash : List Nat → String) (ca : String)
    (fetch : Nat → Except String FetchedBlock) (sendOk : Bool)
    (h : Nat) (fb : FetchedBlock) (msg : String)
    (hf : fetch h = .ok fb)
    (hc : collectEvents ca (get_block_events txHash fb.txs fb.txs_results) =
      .error msg) :
    process_block txHash ca fetch sendOk h = .error msg := by
  simp only [process_block, hf, hc]

/-- Witness for C2 amended, at the two-event block of `fetchC2`. -/
theorem c2_amended_witness :
    process_block (fun _ => "bb") "c" fetchC2 true 5 =
      .error "Missing receiver" :=
  c2_per_event_error_aborts_block (fun _ => "bb") "c" fetchC2 true 5
    ⟨[[0]], some [⟨[evPegInNoReceiver, evPegInGood]⟩]⟩ "Missing receiver"
    rfl rfl

/-- C3: a signal `H` with `H ≤ last_processed_height` is a no-op; otherwise
the batch fetches exactly the heights `last_processed_height + 1, ..., H`,
each exactly once, in strictly ascending order, and nothing above `H`. -/
theorem c3_signal_processes_exact_range
    (pb : Nat → Except String (Option BlockEvents)) (last H : Nat) :
    (H ≤ last → processSignal pb ⟨last, [], []⟩ H = ⟨last, [], []⟩) ∧
    (last < H →
      (processSignal pb ⟨last, [], []⟩ H).fetched =
          List.range' (last + 1) (H - last) ∧
      ((processSignal pb ⟨last, [], []⟩ H).fetched).Nodup ∧
      List.Chain' (fun a b => a < b)
          (processSignal pb ⟨last, [], []⟩ H).fetched ∧
      ∀ h ∈ (processSignal pb ⟨last, [], []⟩ H).fetched,
        last < h ∧ h ≤ H) := by
  constructor
  · intro hle
    unfold processSignal
    rw [if_pos hle]
  · intro hlt
    have hnle : ¬H ≤ last := Nat.not_le.mpr hlt
    have hf : (processSignal pb ⟨last, [], []⟩ H).fetched =
        List.range' (last + 1) (H - last) := by
      unfold processSignal
      rw [if_neg hnle, foldl_stepHeight_fetched]
      simp
    refine ⟨hf, ?_, ?_, ?_⟩
    · rw [hf]; exact List.nodup_range' _ _
    · rw [hf]; exact (List.pairwise_lt_range' _ _).chain'
    · rw [hf]
      intro h hmem
      rw [List.mem_range'_1] at hmem
      omega

/-- Witness for C3 at `last_processed_height = 10`, signal `15`: exactly
`11, 12, 13, 14, 15` are fetched, in that order. -/
theorem c3_witness :
    (processSignal (fun _ => .ok none) ⟨10, [], []⟩ 15).fetched =
        List.range' 11 5 ∧
      List.range' 11 5 = [11, 12, 13, 14, 15] :=
  ⟨((c3_signal_processes_exact_range (fun _ => .ok none) 10 15).2
      (by decide)).1,
   by decide⟩

/-- C4 counterexample: with the consumer channel closed (`sendOk = false`),
`process_block` does error at height `1`, but the processing loop swallows
the error, goes on to fetch height `2`, and — when the height-signal source
is exhausted (closed) — returns success, not an explicit error.  This
contradicts "fatal; propagated upward; the loop terminates with an explicit
error". -/
theorem c4_counterexample :
    process_block (fun _ => "aa") "c" fetchOneGoodEvent false 1 =
        .error "Failed to send block events to channel" ∧
      process_blocks_sequentially
          (process_block (fun _ => "aa") "c" fetchOneGoodEvent false) 0 [2] =
        .ok ⟨0, [1, 2], []⟩ :=
  ⟨rfl, rfl⟩

/-- C4 amended: a failed send makes `process_block` return an error, but
`process_blocks_sequentially` logs and swallows every per-height error,
still attempting every height of the batch, and it returns success (never an
error) when the height-signal source closes. -/
theorem c4_errors_not_fatal
    (pb : Nat → Except String (Option BlockEvents)) (last H : Nat)
    (signals : List Nat) (txHash : List Nat → String) (ca : String)
    (fetch : Nat → Except String FetchedBlock) (h : Nat) (fb : FetchedBlock)
    (l : List (String × ContractEvent))
    (hf : fetch h = .ok fb)
    (hc : collectEvents ca (get_block_events txHash fb.txs fb.txs_results) =
      .ok l)
    (hne : l ≠ []) :
    process_block txHash ca fetch false h =
        .error "Failed to send block events to channel" ∧
      (processSignal pb ⟨last, [], []⟩ H).fetched =
        (if H ≤ last then [] else List.range' (last + 1) (H - last)) ∧
      ∃ r, process_blocks_sequentially pb last signals = .ok r := by
  refine ⟨?_, ?_, ⟨_, rfl⟩⟩
  · simp [process_block, hf, hc, hne]
  · unfold processSignal
    by_cases hH : H ≤ last
    · rw [if_pos hH, if_pos hH]
    · rw [if_neg hH, if_neg hH, foldl_stepHeight_fetched]
      simp

/-- Witness for C4 amended at a concrete one-event block with the consumer
gone. -/
theorem c4_witness :
    process_block (fun _ => "aa") "c" fetchOneGoodEvent false 1 =
        .error "Failed to send block events to channel" ∧
      (processSignal pbFailAt12 ⟨0, [], []⟩ 2).fetched =
        (if 2 ≤ 0 then [] else List.range' (0 + 1) (2 - 0)) ∧
      ∃ r, process_blocks_sequentially pbFailAt12 0 [2] = .ok r :=
  c4_errors_not_fatal pbFailAt12 0 2 [2] (fun _ => "aa") "c"
    fetchOneGoodEvent 1 ⟨[[0]], some [⟨[evPegInGood]⟩]⟩
    [("aa", .PegIn ⟨0, "addrA", 100⟩)] rfl rfl (by simp)

/-- C5: `parse_contract_event` yields `Ok(None)` — no event and no error —
when the kind is not `wasm`, when the `_contract_address` attribute differs
from the configured contract, or when the `action` attribute is neither
`peg_in` nor `peg_out`, regardless of the other attributes. -/
theorem c5_parse_skips_foreign_events (ca : String) (ev : Event) :
    (ev.kind ≠ "wasm" → parse_contract_event ca ev = .ok none) ∧
    (attrsGet (buildAttrs ev.attributes) "_contract_address" ≠ some ca →
        parse_contract_event ca ev = .ok none) ∧
    (attrsGet (buildAttrs ev.attributes) "action" ≠ some "peg_in" →
      attrsGet (buildAttrs ev.attributes) "action" ≠ some "peg_out" →
        parse_contract_event ca ev = .ok none) := by
  refine ⟨?_, ?_, ?_⟩
  · intro h
    simp [parse_contract_event, h]
  · intro h
    by_cases hk : ev.kind = "wasm"
    · simp [parse_contract_event, hk, h]
    · simp [parse_contract_event, hk]
  · intro h1 h2
    by_cases hk : ev.kind = "wasm"
    · simp [parse_contract_event, hk, h1, h2]
    · simp [parse_contract_event, hk]

/-- Witness for C5: a fully well-formed `peg_in` event from another contract
is silently dropped. -/
theorem c5_witness :
    attrsGet (buildAttrs evOtherContract.attributes) "_contract_address" ≠
        some "c" ∧
      parse_contract_event "c" evOtherContract = .ok none :=
  ⟨by decide,
   (c5_parse_skips_foreign_events "c" evOtherContract).2.1 (by decide)⟩

/-- C6: when the transaction list and the per-transaction results list have
different lengths, `get_block_events` yields zero pairs (and `process_block`
then succeeds with nothing to send — no error); when the lengths are equal
it yields exactly one pair per transaction, in transaction order. -/
theorem c6_length_mismatch_yields_no_events
    (txHash : List Nat → String) (txs : List (List Nat)) (rs : List TxResult)
    (ca : String) (sendOk : Bool)
    (fetch : Nat → Except String FetchedBlock) (h : Nat) :
    (txs.length ≠ rs.length →
      get_block_events txHash txs (some rs) = [] ∧
      (fetch h = .ok ⟨txs, some rs⟩ →
        process_block txHash ca fetch sendOk h = .ok none)) ∧
    (txs.length = rs.length →
      (get_block_events txHash txs (some rs)).length = txs.length ∧
      ∀ i (hi : i < txs.length) (hi2 : i < rs.length),
        (get_block_events txHash txs (some rs))[i]? =
          some (txHash (txs.get ⟨i, hi⟩), (rs.get ⟨i, hi2⟩).events)) := by
  constructor
  · intro hne
    have hg : get_block_events txHash txs (some rs) = [] := by
      simp [get_block_events, hne]
    refine ⟨hg, fun hf => ?_⟩
    simp [process_block, hf, hg, collectEvents]
  · intro heq
    have hg : get_block_events txHash txs (some rs) =
        (txs.zip rs).map (fun p => (txHash p.1, p.2.events)) := by
      simp [get_block_events, heq]
    constructor
    · rw [hg]
      simp [heq]
    · intro i hi hi2
      rw [hg, List.getElem?_map]
      have hzl : i < (txs.zip rs).length := by
        simp
        omega
      rw [List.getElem?_eq_getElem hzl]
      simp [List.getElem_zip, List.get_eq_getElem]

/-- Witness for C6, on a block with two transactions but a single execution
result: zero pairs and a successful, empty `process_block`. -/
theorem c6_witness :
    get_block_events (fun _ => "aa") [[0], [1]] (some [⟨[]⟩]) = [] ∧
      process_block (fun _ => "aa") "c"
          (fun _ => .ok ⟨[[0], [1]], some [⟨[]⟩]⟩) true 3 = .ok none := by
  have h := (c6_length_mismatch_yields_no_events (fun _ => "aa")
      [[0], [1]] [⟨[]⟩] "c" true
      (fun _ => .ok ⟨[[0], [1]], some [⟨[]⟩]⟩) 3).1 (by decide)
  exact ⟨h.1, h.2 rfl⟩

/-- C7: when every event of the block parses without error, a batch is sent
if and only if at least one contract event was produced, and the batch
carries the block's height and the full in-order list of (tx_hash, event)
pairs. -/
theorem c7_batch_sent_iff_nonempty
    (txHash : List Nat → String) (ca : String)
    (fetch : Nat → Except String FetchedBlock) (h : Nat) (fb : FetchedBlock)
    (l : List (String × ContractEvent))
    (hf : fetch h = .ok fb)
    (hc : collectEvents ca (get_block_events txHash fb.txs fb.txs_results) =
      .ok l) :
    process_block txHash ca fetch true h =
      (if l = [] then .ok none else .ok (some ⟨h, l⟩)) := by
  simp only [process_block, hf, hc]
  by_cases hl : l = [] <;> simp [hl]

/-- Witness for C7: a block with a `peg_in` transaction then a `peg_out`
transaction delivers one batch with both events in transaction order, each
under its own transaction hash. -/
theorem c7_witness :
    process_block txHashTwo "c" fetchTwoTx true 7 =
      .ok (some ⟨7, [("hash0", .PegIn ⟨0, "addrA", 100⟩),
                     ("hash1", .PegOut ⟨1, "s1", "b1", "p1", 50⟩)]⟩) := by
  have h := c7_batch_sent_iff_nonempty txHashTwo "c" fetchTwoTx 7
      ⟨[[0], [1]], some [⟨[evPegInGood]⟩, ⟨[evPegOutNoFee]⟩]⟩
      [("hash0", .PegIn ⟨0, "addrA", 100⟩),
       ("hash1", .PegOut ⟨1, "s1", "b1", "p1", 50⟩)] rfl rfl
  simpa using h

/-- C8 counterexample: the parsed `PegOut` event carries no fee rate at all —
two events differing only in their `fee_rate` attribute parse to the very
same value (and `PegOutEvent` has no such field), against the claim that the
produced event carries an optional `fee_rate`. -/
theorem c8_counterexample :
    parse_contract_event "c" (evPegOutFee "5") =
        parse_contract_event "c" (evPegOutFee "7") ∧
      parse_contract_event "c" (evPegOutFee "5") =
        .ok (some (.PegOut ⟨1, "s1", "b1", "p1", 50⟩)) :=
  ⟨rfl, rfl⟩

/-- C8 amended: for a `wasm` `peg_out` event of the configured contract with
parsable `amount` and `msg_index`, a missing `sender`, `btc_address` or
`operator_btc_pk` is an error for that event, and when all three are present
a `PegOut` event is produced carrying `msg_index`, `sender`, `btc_address`,
`operator_btc_pk` and `amount`; the `fee_rate` attribute is never read, so
its absence is trivially not an error and the event carries no fee rate. -/
theorem c8_peg_out_required_fields (ca : String) (ev : Event)
    {amountStr msgIndexStr : String} {amount msg_index : Nat}
    (hk : ev.kind = "wasm")
    (hca : attrsGet (buildAttrs ev.attributes) "_contract_address" = some ca)
    (hact : attrsGet (buildAttrs ev.attributes) "action" = some "peg_out")
    (ham : attrsGet (buildAttrs ev.attributes) "amount" = some amountStr)
    (hav : parseUnsigned U128_MAX amountStr = some amount)
    (hmi : attrsGet (buildAttrs ev.attributes) "msg_index" = some msgIndexStr)
    (hmv : parseUnsigned U32_MAX msgIndexStr = some msg_index) :
    (attrsGet (buildAttrs ev.attributes) "sender" = none →
        parse_contract_event ca ev = .error "Missing sender") ∧
    (∀ sender,
      attrsGet (buildAttrs ev.attributes) "sender" = some sender →
      attrsGet (buildAttrs ev.attributes) "btc_address" = none →
        parse_contract_event ca ev = .error "Missing btc_address") ∧
    (∀ sender btcAddr,
      attrsGet (buildAttrs ev.attributes) "sender" = some sender →
      attrsGet (buildAttrs ev.attributes) "btc_address" = some btcAddr →
      attrsGet (buildAttrs ev.attributes) "operator_btc_pk" = none →
        parse_contract_event ca ev = .error "Missing operator_btc_pk") ∧
    (∀ sender btcAddr opPk,
      attrsGet (buildAttrs ev.attributes) "sender" = some sender →
      attrsGet (buildAttrs ev.attributes) "btc_address" = some btcAddr →
      attrsGet (buildAttrs ev.attributes) "operator_btc_pk" = some opPk →
        parse_contract_event ca ev =
          .ok (some (.PegOut
            ⟨msg_index, sender, btcAddr, opPk, amount⟩))) := by
  refine ⟨?_, ?_, ?_, ?_⟩
  · intro hs
    simp [parse_contract_event, hk, hca, hact, ham, hav, hmi, hmv, hs]
  · intro s hs hb
    simp [parse_contract_event, hk, hca, hact, ham, hav, hmi, hmv, hs, hb]
  · intro s b hs hb ho
    simp [parse_contract_event, hk, hca, hact, ham, hav, hmi, hmv, hs, hb, ho]
  · intro s b p hs hb hp
    simp [parse_contract_event, hk, hca, hact, ham, hav, hmi, hmv, hs, hb, hp]

/-- Witness for C8 amended: the `peg_out` event without any `fee_rate`
attribute parses successfully. -/
theorem c8_witness :
    parse_contract_event "c" evPegOutNoFee =
      .ok (some (.PegOut ⟨1, "s1", "b1", "p1", 50⟩)) :=
  ((c8_peg_out_required_fields "c" evPegOutNoFee
      rfl rfl rfl rfl rfl rfl rfl).2.2.2) "s1" "b1" "p1" rfl rfl rfl

/-- C9: the attribute lookup of `parse_contract_event` reads, for every key,
the value of the last occurrence of that key in attribute order (last value
wins when a key repeats). -/
theorem c9_last_value_wins (attrs : List EventAttribute) (k : String) :
    attrsGet (buildAttrs attrs) k = lastOccurrenceValue k attrs := by
  have h := attrsGet_foldl k attrs []
  rw [buildAttrs, h]
  cases hl : lastOccurrenceValue k attrs <;> simp [attrsGet]

/-- C10: an attribute whose key or value bytes are not valid UTF-8 is
silently skipped — the attribute map, and hence the whole parse, is the same
as if the attribute were absent, so such an attribute never by itself causes
an error. -/
theorem c10_invalid_utf8_attribute_ignored (ca kindStr : String)
    (l1 l2 : List EventAttribute) (a : EventAttribute)
    (ha : a.key_str = none ∨ a.value_str = none) :
    buildAttrs (l1 ++ a :: l2) = buildAttrs (l1 ++ l2) ∧
      parse_contract_event ca ⟨kindStr, l1 ++ a :: l2⟩ =
        parse_contract_event ca ⟨kindStr, l1 ++ l2⟩ := by
  have hstep : ∀ m, attrStep m a = m := by
    intro m
    unfold attrStep
    rcases ha with h | h
    · rw [h]
    · rw [h]; cases a.key_str <;> rfl
  have hb : buildAttrs (l1 ++ a :: l2) = buildAttrs (l1 ++ l2) := by
    unfold buildAttrs
    rw [List.foldl_append, List.foldl_append, List.foldl_cons, hstep]
  refine ⟨hb, ?_⟩
  simp only [parse_contract_event]
  rw [hb]

/-- Witness for C10: a key-less attribute in front of a well-formed `peg_in`
attribute list changes nothing. -/
theorem c10_witness :
    buildAttrs (([] : List EventAttribute) ++
        ⟨none, some "x"⟩ :: evPegInGood.attributes) =
      buildAttrs (([] : List EventAttribute) ++ evPegInGood.attributes) ∧
      parse_contract_event "c"
          ⟨"wasm", ([] : List EventAttribute) ++
            ⟨none, some "x"⟩ :: evPegInGood.attributes⟩ =
        parse_contract_event "c"
          ⟨"wasm", ([] : List EventAttribute) ++ evPegInGood.attributes⟩ :=
  c10_invalid_utf8_attribute_ignored "c" "wasm" [] evPegInGood.attributes
    ⟨none, some "x"⟩ (Or.inl rfl)

end CWClient
